import Mathlib

/-!
Verification development for the anki-vibe synchronization engine.

The definitions below are a shallow embedding of the Python sources:

* src/utils/hashing.py        (compute_note_hash, compute_model_hash)
* src/core/state_manager.py   (StateManager: JSON dict of note/model hashes)
* src/services/sync_service.py (_sync_notes, _sync_model_structure)
* src/services/pull_service.py (_save_notes_by_query)
* src/models/note.py          (AnkiNote.check_fields_not_empty)

Python dictionaries are modeled as association lists, machine integers as
Nat, fallible remote calls as explicit oracles, and the remote traffic of a
run as a list of events.
-/

/-- Hex digit characters used by json.dumps for control-character escapes
(lowercase, as produced by the format string u-escape of the encoder). -/
def hexDigitChar (n : Nat) : Char :=
  if n < 10 then Char.ofNat (48 + n) else Char.ofNat (87 + n)

/-- Escape of one character inside a JSON string literal, as performed by
json.dumps with ensure-ascii disabled: the quote and backslash are
backslash-escaped, the five control characters b, t, n, f, r get their
short escapes, all remaining control characters below 0x20 become a
lowercase u-escape, and every other character is passed through verbatim. -/
def escChar (c : Char) : List Char :=
  if c = '"' then ['\\', '"']
  else if c = '\\' then ['\\', '\\']
  else if c.toNat = 8 then ['\\', 'b']
  else if c = '\t' then ['\\', 't']
  else if c = '\n' then ['\\', 'n']
  else if c.toNat = 12 then ['\\', 'f']
  else if c = '\r' then ['\\', 'r']
  else if c.toNat < 32 then
    ['\\', 'u', '0', '0', hexDigitChar (c.toNat / 16), hexDigitChar (c.toNat % 16)]
  else [c]

/-- Escape of a whole character list (body of a JSON string literal). -/
def escList (l : List Char) : List Char := l.flatMap escChar

/-- JSON string literal for a Python string: quote, escaped body, quote. -/
def encStr (s : String) : List Char := '"' :: escList s.data ++ ['"']

/-- Join of pre-rendered parts with the default json.dumps item separator,
a comma followed by a space. -/
def encParts : List (List Char) → List Char
  | [] => []
  | [p] => p
  | p :: ps => p ++ ',' :: ' ' :: encParts ps

/-- JSON array of pre-rendered elements: bracket, joined parts, bracket. -/
def encArr (vals : List (List Char)) : List Char :=
  '[' :: encParts vals ++ [']']

/-- JSON object from (key, pre-rendered value) entries, in the given entry
order, with the default json.dumps key separator (colon and space). -/
def encObj (entries : List (String × List Char)) : List Char :=
  '\x7b' :: encParts (entries.map fun e => encStr e.1 ++ ':' :: ' ' :: e.2) ++ ['\x7d']

/-- Strict lexicographic comparison of character lists by code point,
mirroring Python string comparison (Python compares strings code point by
code point; when one string starts the other, the shorter sorts first). -/
def pyStrLtChars : List Char → List Char → Bool
  | [], [] => false
  | [], _ :: _ => true
  | _ :: _, [] => false
  | a :: as, b :: bs => if a < b then true else if b < a then false else pyStrLtChars as bs

/-- Strict Python string comparison. -/
def pyStrLt (a b : String) : Bool := pyStrLtChars a.data b.data

/-- Non-strict Python string comparison (total order). -/
def pyStrLe (a b : String) : Bool := ! pyStrLt b a

/-- Non-strict Python string order as a relation. -/
abbrev pyLe (a b : String) : Prop := pyStrLe a b = true

instance : DecidableRel pyLe := fun a b => inferInstanceAs (Decidable (pyStrLe a b = true))

/-- Key ordering used by json.dumps with sort-keys enabled: entries are
sorted by their key string under Python string comparison.  Python sorts
the (key, value) item pairs, but since dict keys are unique the result is
determined by the keys alone. -/
abbrev keyLe (a b : String × List Char) : Prop := pyStrLe a.1 b.1 = true

instance : DecidableRel keyLe := fun a b => inferInstanceAs (Decidable (pyStrLe a.1 b.1 = true))

/-- Sorting of object entries by key, modeling the sort-keys option. -/
def sortEntries (entries : List (String × List Char)) : List (String × List Char) :=
  List.insertionSort keyLe entries

/-- JSON object with its entries sorted by key, as json.dumps with
sort-keys enabled renders every dict. -/
def encObjSorted (entries : List (String × List Char)) : List Char :=
  encObj (sortEntries entries)

/-- Python sorted() on a list of strings: the unique weakly sorted
permutation under code-point lexicographic order. -/
def pySorted (l : List String) : List String :=
  List.insertionSort pyLe l

/-- Whitespace predicate of Python str.strip (restricted to the ASCII
whitespace characters; the claims never involve the exotic Unicode
whitespace code points that Python additionally strips). -/
def isPySpace (c : Char) : Bool := c.toNat = 32 || (9 ≤ c.toNat && c.toNat ≤ 13)

/-- Python str.strip(): drop leading and trailing whitespace. -/
def pyStrip (s : String) : String :=
  String.mk (((s.data.dropWhile isPySpace).reverse.dropWhile isPySpace).reverse)

theorem string_eq_of_data {s t : String} (h : s.data = t.data) : s = t := by
  cases s
  cases t
  exact congrArg String.mk h

/-- Value of a lowercase hexadecimal digit character (0 on other input). -/
def hexVal (c : Char) : Nat :=
  if 48 ≤ c.toNat ∧ c.toNat ≤ 57 then c.toNat - 48
  else if 97 ≤ c.toNat ∧ c.toNat ≤ 102 then c.toNat - 87
  else 0

/-- Helper prepending a decoded character to a parse result. -/
def consMap (c : Char) : Option (List Char × List Char) → Option (List Char × List Char)
  | none => none
  | some p => some (c :: p.1, p.2)

/-- Decoder for the body of a JSON string literal: consumes characters up
to the closing quote and returns the decoded content together with the
unconsumed remainder.  This is a proof device (a left inverse of escList),
not part of the modeled program; it turns the serializer roundtrip into the
injectivity facts the fingerprint-sensitivity claims need. -/
def parseStrBody : List Char → Option (List Char × List Char)
  | [] => none
  | c :: rest =>
    if c = '"' then some ([], rest)
    else if c = '\\' then
      match rest with
      | [] => none
      | e :: rest2 =>
        if e = '"' then consMap '"' (parseStrBody rest2)
        else if e = '\\' then consMap '\\' (parseStrBody rest2)
        else if e = 'b' then consMap (Char.ofNat 8) (parseStrBody rest2)
        else if e = 't' then consMap '\t' (parseStrBody rest2)
        else if e = 'n' then consMap '\n' (parseStrBody rest2)
        else if e = 'f' then consMap (Char.ofNat 12) (parseStrBody rest2)
        else if e = 'r' then consMap '\r' (parseStrBody rest2)
        else if e = 'u' then
          match rest2 with
          | h3 :: h2 :: h1 :: h0 :: rest3 =>
            consMap (Char.ofNat (4096 * hexVal h3 + 256 * hexVal h2 + 16 * hexVal h1 + hexVal h0))
              (parseStrBody rest3)
          | _ => none
        else none
    else consMap c (parseStrBody rest)

theorem hexVal_hexDigitChar : ∀ n, n < 16 → hexVal (hexDigitChar n) = n := by decide

theorem parseStrBody_escChar (c : Char) (t : List Char) :
    parseStrBody (escChar c ++ t) = consMap c (parseStrBody t) := by
  unfold escChar
  split_ifs with h1 h2 h3 h4 h5 h6 h7 h8
  · subst h1
    simp only [List.cons_append, List.nil_append]
    rw [parseStrBody.eq_def]
    simp +decide only
    simp only [if_true, if_false]
  · subst h2
    simp only [List.cons_append, List.nil_append]
    rw [parseStrBody.eq_def]
    simp +decide only
    simp only [if_true, if_false]
  · have hc : c = Char.ofNat 8 := by rw [← h3, Char.ofNat_toNat]
    rw [hc]
    simp only [List.cons_append, List.nil_append]
    rw [parseStrBody.eq_def]
    simp +decide only
    simp only [if_true, if_false]
  · subst h4
    simp only [List.cons_append, List.nil_append]
    rw [parseStrBody.eq_def]
    simp +decide only
    simp only [if_true, if_false]
  · subst h5
    simp only [List.cons_append, List.nil_append]
    rw [parseStrBody.eq_def]
    simp +decide only
    simp only [if_true, if_false]
  · have hc : c = Char.ofNat 12 := by rw [← h6, Char.ofNat_toNat]
    rw [hc]
    simp only [List.cons_append, List.nil_append]
    rw [parseStrBody.eq_def]
    simp +decide only
    simp only [if_true, if_false]
  · subst h7
    simp only [List.cons_append, List.nil_append]
    rw [parseStrBody.eq_def]
    simp +decide only
    simp only [if_true, if_false]
  · have hd1 : c.toNat / 16 < 16 := by omega
    have hd0 : c.toNat % 16 < 16 := Nat.mod_lt _ (by omega)
    simp only [List.cons_append, List.nil_append]
    rw [parseStrBody.eq_def]
    simp +decide only
    rw [hexVal_hexDigitChar _ hd1, hexVal_hexDigitChar _ hd0]
    have hval : (4096 * hexVal '0' + 256 * hexVal '0' + 16 * (c.toNat / 16) + c.toNat % 16) = c.toNat := by
      have h0 : hexVal '0' = 0 := by decide
      rw [h0]
      omega
    rw [hval, Char.ofNat_toNat]
    simp only [if_true, if_false]
  · simp only [List.cons_append, List.nil_append]
    rw [parseStrBody.eq_def]
    simp only
    rw [if_neg h1, if_neg h2]

theorem parseStrBody_escList : ∀ (s r : List Char),
    parseStrBody (escList s ++ '"' :: r) = some (s, r)
  | [], r => by
    show parseStrBody ('"' :: r) = some ([], r)
    rw [parseStrBody.eq_def]
    simp +decide only
    simp only [if_true, if_false]
  | c :: cs, r => by
    have : escList (c :: cs) = escChar c ++ escList cs := by simp [escList]
    rw [this, List.append_assoc, parseStrBody_escChar, parseStrBody_escList cs r]
    rfl

/-- Injectivity of the JSON string-literal encoder with an arbitrary
continuation: two encoded strings followed by suffixes coincide only if the
strings and the suffixes coincide. -/
theorem encStr_append_inj {s t : String} {r₁ r₂ : List Char}
    (h : encStr s ++ r₁ = encStr t ++ r₂) : s = t ∧ r₁ = r₂ := by
  have h2 : '"' :: (escList s.data ++ '"' :: r₁) = '"' :: (escList t.data ++ '"' :: r₂) := by
    simpa [encStr, List.append_assoc] using h
  have h3 : escList s.data ++ '"' :: r₁ = escList t.data ++ '"' :: r₂ := by
    exact (List.cons_injective.eq_iff.mp h2)
  have h4 : some (s.data, r₁) = some (t.data, r₂) := by
    rw [← parseStrBody_escList s.data r₁, ← parseStrBody_escList t.data r₂, h3]
  have h5 := Option.some.inj h4
  refine ⟨string_eq_of_data (congrArg Prod.fst h5), congrArg Prod.snd h5⟩

/-- Injectivity of the JSON string-array body encoder followed by the
closing bracket and an arbitrary continuation. -/
theorem encStrParts_inj : ∀ (ts us : List String) (r₁ r₂ : List Char),
    encParts (ts.map encStr) ++ ']' :: r₁ = encParts (us.map encStr) ++ ']' :: r₂ →
    ts = us ∧ r₁ = r₂
  | [], [], r₁, r₂, h => by
    simp only [List.map_nil, encParts, List.nil_append, List.cons.injEq] at h
    exact ⟨rfl, h.2⟩
  | [], u :: us, r₁, r₂, h => by
    exfalso
    have hhead := congrArg (fun l => l.headD ' ') h
    cases us <;>
      simp only [List.map_nil, List.map_cons, encParts, List.nil_append, List.cons_append,
        List.append_assoc, encStr, List.headD_cons] at hhead <;>
      exact absurd hhead (by decide)
  | t :: ts, [], r₁, r₂, h => by
    exfalso
    have hhead := congrArg (fun l => l.headD ' ') h
    cases ts <;>
      simp only [List.map_nil, List.map_cons, encParts, List.nil_append, List.cons_append,
        List.append_assoc, encStr, List.headD_cons] at hhead <;>
      exact absurd hhead (by decide)
  | t :: ts, u :: us, r₁, r₂, h => by
    cases ts with
    | nil =>
      cases us with
      | nil =>
        simp only [List.map_cons, List.map_nil, encParts] at h
        obtain ⟨hteq, hreq⟩ := encStr_append_inj h
        rw [List.cons.injEq] at hreq
        exact ⟨by rw [hteq], hreq.2⟩
      | cons u2 us2 =>
        exfalso
        simp only [List.map_cons, List.map_nil, encParts, List.append_assoc,
          List.cons_append] at h
        obtain ⟨-, hreq⟩ := encStr_append_inj h
        have hhead := congrArg (fun l => l.headD ' ') hreq
        simp only [List.headD_cons] at hhead
        exact absurd hhead (by decide)
    | cons t2 ts2 =>
      cases us with
      | nil =>
        exfalso
        simp only [List.map_cons, List.map_nil, encParts, List.append_assoc,
          List.cons_append] at h
        obtain ⟨-, hreq⟩ := encStr_append_inj h
        have hhead := congrArg (fun l => l.headD ' ') hreq
        simp only [List.headD_cons] at hhead
        exact absurd hhead (by decide)
      | cons u2 us2 =>
        simp only [List.map_cons, encParts, List.append_assoc, List.cons_append] at h
        obtain ⟨hteq, hreq⟩ := encStr_append_inj h
        rw [List.cons.injEq] at hreq
        obtain ⟨-, hreq⟩ := hreq
        rw [List.cons.injEq] at hreq
        obtain ⟨-, hreq⟩ := hreq
        have hrec := encStrParts_inj (t2 :: ts2) (u2 :: us2) r₁ r₂
          (by simpa only [List.map_cons, encParts] using hreq)
        exact ⟨by rw [hteq, hrec.1], hrec.2⟩

/-- Fingerprint of a note, from compute_note_hash in src/utils/hashing.py:
the payload dict with keys deck, tags (sorted), fields is serialized by
json.dumps with sorted keys and ensure-ascii disabled.  The Python code then
takes the MD5 hex digest of that canonical string; the digest step is a
fixed function of the canonical string (injective up to MD5 collisions), so
this development models the fingerprint by the canonical string itself. -/
def compute_note_hash (deck : String) (tags : List String) (fields : List (String × String)) : String :=
  String.mk (encObjSorted
    [("deck", encStr deck),
     ("fields", encObjSorted (fields.map fun kv => (kv.1, encStr kv.2))),
     ("tags", encArr ((pySorted tags).map encStr))])

/-- Fingerprint of a model (template record), from compute_model_hash in
src/utils/hashing.py: the css text is stripped, templates is a dict from
card name to a dict with Front and Back entries, and the whole payload is
serialized with sorted keys exactly as for notes (same MD5 modeling). -/
def compute_model_hash (css : String) (templates : List (String × String × String)) : String :=
  String.mk (encObjSorted
    [("css", encStr (pyStrip css)),
     ("templates", encObjSorted (templates.map fun t =>
        (t.1, encObjSorted [("Front", encStr t.2.1), ("Back", encStr t.2.2)])))])

theorem pyStrLtChars_nil_right : ∀ l, pyStrLtChars l [] = false
  | [] => rfl
  | _ :: _ => rfl

theorem pyStrLtChars_asymm : ∀ {l₁ l₂ : List Char},
    pyStrLtChars l₁ l₂ = true → pyStrLtChars l₂ l₁ = false
  | [], [], h => by simp [pyStrLtChars] at h
  | [], _ :: _, _ => rfl
  | _ :: _, [], h => by simp [pyStrLtChars] at h
  | a :: as, b :: bs, h => by
    by_cases hab : a < b
    · have hba : ¬ b < a := lt_asymm hab
      simp [pyStrLtChars, hab, hba] at h ⊢
    · by_cases hba : b < a
      · simp [pyStrLtChars, hab, hba] at h
      · have := @pyStrLtChars_asymm as bs
        simp [pyStrLtChars, hab, hba] at h ⊢
        exact this h

theorem pyStrLtChars_connex : ∀ {l₁ l₂ : List Char}, l₁ ≠ l₂ →
    pyStrLtChars l₁ l₂ = true ∨ pyStrLtChars l₂ l₁ = true
  | [], [], h => absurd rfl h
  | [], _ :: _, _ => Or.inl rfl
  | _ :: _, [], _ => Or.inr rfl
  | a :: as, b :: bs, h => by
    by_cases hab : a < b
    · exact Or.inl (by simp [pyStrLtChars, hab])
    · by_cases hba : b < a
      · exact Or.inr (by simp [pyStrLtChars, hba])
      · have hEq : a = b := le_antisymm (not_lt.mp hba) (not_lt.mp hab)
        subst hEq
        have htl : as ≠ bs := fun hc => h (by rw [hc])
        rcases pyStrLtChars_connex htl with hl | hr
        · exact Or.inl (by simp [pyStrLtChars, lt_irrefl, hl])
        · exact Or.inr (by simp [pyStrLtChars, lt_irrefl, hr])

theorem pyStrLtChars_trans : ∀ {l₁ l₂ l₃ : List Char},
    pyStrLtChars l₁ l₂ = true → pyStrLtChars l₂ l₃ = true → pyStrLtChars l₁ l₃ = true
  | _, [], _, h₁, _ => by rw [pyStrLtChars_nil_right] at h₁; exact absurd h₁ (by simp)
  | _, _, [], _, h₂ => by rw [pyStrLtChars_nil_right] at h₂; exact absurd h₂ (by simp)
  | [], _ :: _, _ :: _, _, _ => rfl
  | a :: as, b :: bs, c :: cs, h₁, h₂ => by
    by_cases hab : a < b
    · by_cases hbc : b < c
      · simp [pyStrLtChars, lt_trans hab hbc]
      · by_cases hcb : c < b
        · simp [pyStrLtChars, hbc, hcb] at h₂
        · have hEq : b = c := le_antisymm (not_lt.mp hcb) (not_lt.mp hbc)
          subst hEq
          simp [pyStrLtChars, hab]
    · by_cases hba : b < a
      · simp [pyStrLtChars, hab, hba] at h₁
      · have hEq : a = b := le_antisymm (not_lt.mp hba) (not_lt.mp hab)
        subst hEq
        simp only [pyStrLtChars, if_neg (lt_irrefl a)] at h₁
        by_cases hac : a < c
        · simp [pyStrLtChars, hac]
        · by_cases hca : c < a
          · simp [pyStrLtChars, hca] at h₂
            exact absurd h₂ hac
          · have hEq2 : a = c := le_antisymm (not_lt.mp hca) (not_lt.mp hac)
            subst hEq2
            simp only [pyStrLtChars, if_neg (lt_irrefl a)] at h₂ ⊢
            exact pyStrLtChars_trans h₁ h₂

theorem pyLe_iff {a b : String} : pyLe a b ↔ pyStrLtChars b.data a.data = false := by
  simp [pyLe, pyStrLe, pyStrLt]

theorem pyLe_total (a b : String) : pyLe a b ∨ pyLe b a := by
  rcases hb : pyStrLtChars b.data a.data with _ | _
  · exact Or.inl (pyLe_iff.mpr hb)
  · exact Or.inr (pyLe_iff.mpr (pyStrLtChars_asymm hb))

theorem pyLe_trans {a b c : String} (h₁ : pyLe a b) (h₂ : pyLe b c) : pyLe a c := by
  rw [pyLe_iff] at h₁ h₂ ⊢
  by_contra hcon
  have hca : pyStrLtChars c.data a.data = true := by
    cases h : pyStrLtChars c.data a.data
    · exact absurd h hcon
    · rfl
  by_cases hbc : b.data = c.data
  · rw [← hbc] at hca; rw [hca] at h₁; exact absurd h₁ (by simp)
  · rcases pyStrLtChars_connex hbc with hl | hr
    · have := pyStrLtChars_trans hl hca
      rw [this] at h₁; exact absurd h₁ (by simp)
    · rw [hr] at h₂; exact absurd h₂ (by simp)

theorem pyLe_antisymm {a b : String} (h₁ : pyLe a b) (h₂ : pyLe b a) : a = b := by
  rw [pyLe_iff] at h₁ h₂
  by_cases hd : a.data = b.data
  · exact string_eq_of_data hd
  · rcases pyStrLtChars_connex hd with hl | hr
    · rw [hl] at h₂; exact absurd h₂ (by simp)
    · rw [hr] at h₁; exact absurd h₁ (by simp)

instance : IsTotal String pyLe := ⟨pyLe_total⟩

instance : IsTrans String pyLe := ⟨fun _ _ _ => pyLe_trans⟩

instance : IsAntisymm String pyLe := ⟨fun _ _ => pyLe_antisymm⟩

instance : IsTotal (String × List Char) keyLe := ⟨fun a b => pyLe_total a.1 b.1⟩

instance : IsTrans (String × List Char) keyLe := ⟨fun _ _ _ => pyLe_trans⟩

/-- Strict key ordering on object entries, used to show that key-sorting a
duplicate-free entry list is permutation invariant. -/
abbrev keyLt (a b : String × List Char) : Prop := pyStrLt a.1 b.1 = true

instance : IsAntisymm (String × List Char) keyLt :=
  ⟨fun a b h₁ h₂ => absurd h₂ (by simp [keyLt, pyStrLt, pyStrLtChars_asymm h₁])⟩

theorem keyLt_of_keyLe_of_ne {a b : String × List Char} (hle : keyLe a b) (hne : a.1 ≠ b.1) :
    keyLt a b := by
  have hd : a.1.data ≠ b.1.data := fun hc => hne (string_eq_of_data hc)
  have hle2 : pyLe a.1 b.1 := hle
  rw [pyLe_iff] at hle2
  rcases pyStrLtChars_connex hd with hl | hr
  · exact hl
  · rw [hr] at hle2; exact absurd hle2 (by simp)

/-- Key-sorting is invariant under permutation of a duplicate-free entry
list: two insertion orders of the same dict produce the same sorted item
list, hence the same serialization. -/
theorem sortEntries_eq_of_perm {l₁ l₂ : List (String × List Char)} (hp : l₁.Perm l₂)
    (hnd : (l₁.map Prod.fst).Nodup) : sortEntries l₁ = sortEntries l₂ := by
  have hperm : (sortEntries l₁).Perm (sortEntries l₂) :=
    ((List.perm_insertionSort keyLe l₁).trans hp).trans (List.perm_insertionSort keyLe l₂).symm
  have hstrict : ∀ l : List (String × List Char), (l.map Prod.fst).Nodup →
      List.Sorted keyLe (List.insertionSort keyLe l) →
      List.Sorted keyLt (List.insertionSort keyLe l) := by
    intro l hl hs
    have hnds : ((List.insertionSort keyLe l).map Prod.fst).Nodup :=
      (((List.perm_insertionSort keyLe l).map Prod.fst).nodup_iff).mpr hl
    have hpw : (List.insertionSort keyLe l).Pairwise (fun a b => a.1 ≠ b.1) :=
      (List.pairwise_map).mp hnds
    exact (hs.and hpw).imp fun h => keyLt_of_keyLe_of_ne h.1 h.2
  have hnd₂ : (l₂.map Prod.fst).Nodup := ((hp.map Prod.fst).nodup_iff).mp hnd
  exact List.eq_of_perm_of_sorted hperm
    (hstrict l₁ hnd (List.sorted_insertionSort keyLe l₁))
    (hstrict l₂ hnd₂ (List.sorted_insertionSort keyLe l₂))

/-- Python sorted() is invariant under permutation of its input. -/
theorem pySorted_eq_of_perm {l₁ l₂ : List String} (hp : l₁.Perm l₂) :
    pySorted l₁ = pySorted l₂ :=
  List.eq_of_perm_of_sorted
    (((List.perm_insertionSort pyLe l₁).trans hp).trans (List.perm_insertionSort pyLe l₂).symm)
    (List.sorted_insertionSort pyLe l₁) (List.sorted_insertionSort pyLe l₂)


/-- State of the StateManager (src/core/state_manager.py): the JSON dict
held in self.state, with its notes and models sub-dicts modeled as
association lists keyed by note id and model name.  Python dict lookup and
upsert are modeled by the assoc helpers below. -/
structure SyncState where
  notes : List (Nat × String)
  models : List (String × String)
deriving DecidableEq

/-- Dict lookup for the notes sub-dict (keys are str(note_id) in the JSON
file; the str conversion is injective on Nat, so Nat keys are used). -/
def assocGetNat : List (Nat × String) → Nat → Option String
  | [], _ => none
  | p :: ps, k => if p.1 = k then some p.2 else assocGetNat ps k

/-- Dict upsert for the notes sub-dict. -/
def assocSetNat : List (Nat × String) → Nat → String → List (Nat × String)
  | [], k, v => [(k, v)]
  | p :: ps, k, v => if p.1 = k then (k, v) :: ps else p :: assocSetNat ps k v

/-- Dict lookup for the models sub-dict. -/
def assocGetStr : List (String × String) → String → Option String
  | [], _ => none
  | p :: ps, k => if p.1 = k then some p.2 else assocGetStr ps k

/-- Dict upsert for the models sub-dict. -/
def assocSetStr : List (String × String) → String → String → List (String × String)
  | [], k, v => [(k, v)]
  | p :: ps, k, v => if p.1 = k then (k, v) :: ps else p :: assocSetStr ps k v

/-- StateManager.get_note_hash. -/
def get_note_hash (st : SyncState) (note_id : Nat) : Option String :=
  assocGetNat st.notes note_id

/-- StateManager.update_note_hash (in-memory dict upsert). -/
def update_note_hash (st : SyncState) (note_id : Nat) (new_hash : String) : SyncState :=
  SyncState.mk (assocSetNat st.notes note_id new_hash) st.models

/-- StateManager.get_model_hash. -/
def get_model_hash (st : SyncState) (model_name : String) : Option String :=
  assocGetStr st.models model_name

/-- StateManager.update_model_hash (in-memory dict upsert). -/
def update_model_hash (st : SyncState) (model_name : String) (new_hash : String) : SyncState :=
  SyncState.mk st.notes (assocSetStr st.models model_name new_hash)

/-- One note entry as read from notes.yaml by _sync_notes, with the .get
defaults already applied: note.get("id"), note.get("deck", "Default"),
note.get("tags", []), note.get("fields", \x7b\x7d).  Fields is the
insertion-ordered association list of the YAML mapping. -/
structure Note where
  id : Option Nat
  deck : String
  tags : List String
  fields : List (String × String)
deriving DecidableEq

/-- Payload dict built for the addNotes call (_sync_notes lines 184-189). -/
structure CreatePayload where
  deckName : String
  modelName : String
  fields : List (String × String)
  tags : List String
deriving DecidableEq

/-- BatchAction dicts built by create_update_fields_action and
create_update_tags_action in src/adapters/anki_connect.py. -/
inductive BatchAction where
  | updateNoteFields (id : Nat) (fields : List (String × String))
  | updateNoteTags (id : Nat) (tags : List String)
deriving DecidableEq

/-- RemoteBehavior calls and file writes performed by a sync pass, in order. -/
inductive SyncEvent where
  | addNotesCall (notes : List CreatePayload)
  | multiCall (actions : List BatchAction)
  | fileRewrite (notes : List Note)
  | styleUpdate (model : String) (css : String)
deriving DecidableEq

/-- Per-note result of the classification loop. -/
inductive NoteDecision where
  | create (payload : CreatePayload)
  | update (fieldsAction tagsAction : BatchAction) (id : Nat) (newHash : String)
  | unchanged
deriving DecidableEq

/-- Per-note body of the classification loop (_sync_notes lines 172-208):
a note with a falsy id (absent, or 0, since Python tests `if not note_id`)
is classified CREATE; otherwise the current fingerprint is compared with
the stored hash (Python `current_hash != stored_hash`, where the stored
value may be None) and a difference yields UPDATE with one field-update and
one tag-update action, equality yields no action. -/
def classifyNote (model_name : String) (st : SyncState) (note : Note) : NoteDecision :=
  let current_hash := compute_note_hash note.deck note.tags note.fields
  match note.id with
  | none => NoteDecision.create (CreatePayload.mk note.deck model_name note.fields note.tags)
  | some note_id =>
    if note_id = 0 then NoteDecision.create (CreatePayload.mk note.deck model_name note.fields note.tags)
    else if get_note_hash st note_id ≠ some current_hash then
      NoteDecision.update (BatchAction.updateNoteFields note_id note.fields)
        (BatchAction.updateNoteTags note_id note.tags) note_id current_hash
    else NoteDecision.unchanged

/-- Accumulator of the classification loop: to_create, to_create_indices,
batch_actions and the dirty_note_hashes dict of _sync_notes. -/
structure ClassifyAcc where
  to_create : List CreatePayload
  to_create_indices : List Nat
  batch_actions : List BatchAction
  dirty_note_hashes : List (Nat × String)
deriving DecidableEq

/-- Effect of one loop iteration on the accumulator. -/
def classifyStep (model_name : String) (st : SyncState) (acc : ClassifyAcc) (idx : Nat)
    (note : Note) : ClassifyAcc :=
  match classifyNote model_name st note with
  | NoteDecision.create p =>
    ClassifyAcc.mk (acc.to_create ++ [p]) (acc.to_create_indices ++ [idx])
      acc.batch_actions acc.dirty_note_hashes
  | NoteDecision.update a1 a2 nid h =>
    ClassifyAcc.mk acc.to_create acc.to_create_indices
      (acc.batch_actions ++ [a1, a2]) (assocSetNat acc.dirty_note_hashes nid h)
  | NoteDecision.unchanged => acc

/-- Classification loop from a given accumulator and index. -/
def classifyAllFrom (model_name : String) (st : SyncState) :
    ClassifyAcc → Nat → List Note → ClassifyAcc
  | acc, _, [] => acc
  | acc, idx, note :: rest =>
    classifyAllFrom model_name st (classifyStep model_name st acc idx note) (idx + 1) rest

/-- Classification phase of _sync_notes (the `for idx, note in
enumerate(notes_data)` loop). -/
def classifyAll (model_name : String) (st : SyncState) (notes : List Note) : ClassifyAcc :=
  classifyAllFrom model_name st (ClassifyAcc.mk [] [] [] []) 0 notes

/-- Assignment notes_data[i]["id"] = nid. -/
def setNoteId : List Note → Nat → Nat → List Note
  | [], _, _ => []
  | n :: ns, 0, nid => Note.mk (some nid) n.deck n.tags n.fields :: ns
  | n :: ns, Nat.succ i, nid => n :: setNoteId ns i nid

/-- ID back-assignment loop of the create phase (_sync_notes lines
216-225): for each returned id, if truthy (Python `if new_id:`), write it
into the note at the recorded index and store the fingerprint of the
submitted payload under the new id; a null entry leaves its record
untouched.  The three lists run in lockstep as in the Python enumerate
loop (a length mismatch would raise IndexError there and is unreachable,
since addNotes returns one entry per submitted note). -/
def applyCreateResults : List (Option Nat) → List CreatePayload → List Nat →
    List Note → SyncState → List Note × SyncState
  | [], _, _, notes, st => (notes, st)
  | _ :: _, [], _, notes, st => (notes, st)
  | _ :: _, _ :: _, [], notes, st => (notes, st)
  | oid :: ids, p :: ps, ix :: ixs, notes, st =>
    match oid with
    | some nid =>
      if nid ≠ 0 then
        applyCreateResults ids ps ixs (setNoteId notes ix nid)
          (update_note_hash st nid (compute_note_hash p.deckName p.tags p.fields))
      else applyCreateResults ids ps ixs notes st
    | none => applyCreateResults ids ps ixs notes st

/-- Chunked execution of the batched update actions (_sync_notes lines
233-237): successive slices of at most 500 actions are submitted via the
multi call, in order; the first failing chunk raises, aborting the loop
(its own call was still issued).  ok gives the success of the k-th chunk
call.  Returns whether every chunk succeeded together with the multi calls
issued.  The fuel argument is a structural termination bound, always
called with at least the length of the list (each step drops 500 > 0
elements, so fuel never runs out). -/
def runChunksFuel (ok : Nat → Bool) : Nat → Nat → List BatchAction → Bool × List SyncEvent
  | 0, _, _ => (true, [])
  | _, _, [] => (true, [])
  | Nat.succ fuel, k, a :: rest =>
    let chunk := (a :: rest).take 500
    if ok k then
      let r := runChunksFuel ok fuel (k + 1) ((a :: rest).drop 500)
      (r.1, SyncEvent.multiCall chunk :: r.2)
    else (false, [SyncEvent.multiCall chunk])

/-- Chunk loop entry point (chunk_size = 500 as in the source). -/
def runChunks (ok : Nat → Bool) (batch : List BatchAction) : Bool × List SyncEvent :=
  runChunksFuel ok batch.length 0 batch

/-- Hash-store loop run after a fully successful update phase (_sync_notes
lines 240-241). -/
def applyDirty : List (Nat × String) → SyncState → SyncState
  | [], st => st
  | p :: rest, st => applyDirty rest (update_note_hash st p.1 p.2)

/-- Update phase of _sync_notes (lines 230-244): the chunk loop and the
hash updates sit in one try block, so the dirty hashes are stored only
when every chunk call returned without error; any failure is caught
(logged) and leaves every stored hash unchanged. -/
def runUpdatePhase (ok : Nat → Bool) (batch : List BatchAction) (dirty : List (Nat × String))
    (st : SyncState) : SyncState × List SyncEvent :=
  let r := runChunks ok batch
  (if r.1 then applyDirty dirty st else st, r.2)

/-- Behavior of the remote endpoint during one sync pass: the result of
the addNotes bulk call (error = raised exception) and the success of each
multi chunk call, by chunk index. -/
structure RemoteBehavior where
  addNotesResult : Except Unit (List (Option Nat))
  multiOk : Nat → Bool

/-- Create phase of _sync_notes (lines 211-227), guarded like the source
(`if to_create:`): the addNotes bulk call is issued, its exception caught
(leaving notes and state untouched), and on success the returned ids are
assigned back. -/
def createPhase (r : RemoteBehavior) (acc : ClassifyAcc) (notes : List Note)
    (st : SyncState) : List Note × SyncState × List SyncEvent :=
  if acc.to_create.isEmpty then (notes, st, [])
  else
    match r.addNotesResult with
    | Except.error _ => (notes, st, [SyncEvent.addNotesCall acc.to_create])
    | Except.ok new_ids =>
      let res := applyCreateResults new_ids acc.to_create acc.to_create_indices notes st
      (res.1, res.2, [SyncEvent.addNotesCall acc.to_create])

/-- Update phase of _sync_notes, guarded like the source (`if
batch_actions:`). -/
def updatePhase (r : RemoteBehavior) (acc : ClassifyAcc) (st : SyncState) :
    SyncState × List SyncEvent :=
  if acc.batch_actions.isEmpty then (st, [])
  else runUpdatePhase r.multiOk acc.batch_actions acc.dirty_note_hashes st

/-- File rewrite of _sync_notes lines 247-249, performed whenever creates
were attempted (`if to_create:`). -/
def rewritePhase (acc : ClassifyAcc) (notes1 : List Note) : List SyncEvent :=
  if acc.to_create.isEmpty then [] else [SyncEvent.fileRewrite notes1]

/-- One collection note sync pass (_sync_notes): classification, bulk
create with id back-assignment (exceptions caught at line 226), chunked
batch update (exceptions caught at line 243), and finally the notes.yaml
rewrite.  Returns the final in-memory notes list, the final state, and the
ordered events of the pass. -/
def syncNotes (r : RemoteBehavior) (model_name : String) (notes : List Note) (st : SyncState) :
    List Note × SyncState × List SyncEvent :=
  let acc := classifyAll model_name st notes
  let cres := createPhase r acc notes st
  let ures := updatePhase r acc cres.2.1
  (cres.1, ures.1, cres.2.2 ++ ures.2 ++ rewritePhase acc cres.1)

/-- Structure sync for one collection (_sync_model_structure lines
141-150): the model fingerprint is compared with the stored one; when they
differ (including an absent stored hash, since Python compares a str
against None) the style is pushed via update_model_styling and only then
is the new hash stored.  styleOk tells whether the remote call returns
without raising; a raise propagates out of the function immediately, so
nothing after the call runs and the stored hash is left unchanged.  The
returned Bool is false when the pass raised. -/
def sync_model_structure (styleOk : Bool) (model_name css : String)
    (templates : List (String × String × String)) (st : SyncState) :
    SyncState × List SyncEvent × Bool :=
  let new_hash := compute_model_hash css templates
  let old_hash := get_model_hash st model_name
  if some new_hash ≠ old_hash then
    if styleOk then
      (update_model_hash st model_name new_hash, [SyncEvent.styleUpdate model_name css], true)
    else (st, [SyncEvent.styleUpdate model_name css], false)
  else (st, [], true)

/-- Detail of one fetched note as returned by the notesInfo remote call
(input of the pull processing loop). -/
structure NoteInfo where
  noteId : Nat
  tags : List String
  fields : List (String × String)
  cards : List Nat
deriving DecidableEq

/-- Yaml scalar representation of one pulled field value. -/
inductive YamlScalar where
  | block (v : String)
  | plain (v : String)
deriving DecidableEq

/-- Representation test of _save_notes_by_query line 252: the preserved
(block) form is chosen exactly when the value contains a newline, or both
markup delimiters, or is longer than 60 characters (Python len counts code
points, as String.length does here). -/
def usesBlockStyle (v : String) : Bool :=
  v.data.contains '\n' || (v.data.contains '<' && v.data.contains '>') ||
    decide (60 < v.length)

/-- Representation choice for one pulled field value (lines 252-255). -/
def processFieldValue (v : String) : YamlScalar :=
  if usesBlockStyle v then YamlScalar.block v else YamlScalar.plain v

/-- Underlying text of a yaml scalar (PreservedScalarString is a Python
str subclass, so both forms carry the same string value). -/
def YamlScalar.text : YamlScalar → String
  | YamlScalar.block v => v
  | YamlScalar.plain v => v

/-- Deck resolution of _save_notes_by_query lines 242-247: the deck of the
first card, looked up in the card-to-deck dict built from the cardsInfo
call, with "Unknown" as the fallback for no cards or a missing entry. -/
def resolveDeck (card_deck_map : List (Nat × String)) (cards : List Nat) : String :=
  match cards with
  | [] => "Unknown"
  | c :: _ => (assocGetNat card_deck_map c).getD "Unknown"

/-- Note-processing loop of _save_notes_by_query (lines 241-271): for each
fetched note, resolve its deck, choose the scalar representation of every
field value, store the fingerprint of the resolved deck, tags and
processed fields into the in-memory StateManager, and append the yaml
entry carrying the note id.  Returns the yaml notes and the updated
in-memory state. -/
def pullSaveNotes (card_deck_map : List (Nat × String)) :
    List NoteInfo → SyncState → List Note × SyncState
  | [], st => ([], st)
  | info :: rest, st =>
    let deck_name := resolveDeck card_deck_map info.cards
    let processed := info.fields.map fun kv => (kv.1, processFieldValue kv.2)
    let fieldsText := processed.map fun kv => (kv.1, kv.2.text)
    let h := compute_note_hash deck_name info.tags fieldsText
    let st2 := update_note_hash st info.noteId h
    let res := pullSaveNotes card_deck_map rest st2
    (Note.mk (some info.noteId) deck_name info.tags fieldsText :: res.1, res.2)

/-- Persisted state after a pull run.  PullService never calls
StateManager.save_state (the only save_state call sites in src are in
SyncService.push_project and push_all_changes), and StateManager only
writes its JSON file inside save_state, so the on-disk state after a pull
run equals the state before it; the hashes written by update_note_hash
during the pull live only in the in-memory StateManager instance of that
run, which is discarded when the process exits. -/
def pull_run_saved_state (file_state : SyncState) : SyncState := file_state

/-- Field validator of the AnkiNote pydantic model
(src/models/note.py check_fields_not_empty): rejects an empty field
mapping with a ValueError. -/
def check_fields_not_empty (v : List (String × String)) :
    Except String (List (String × String)) :=
  if v.isEmpty then Except.error "Fields dictionary cannot be empty" else Except.ok v


set_option maxRecDepth 200000

theorem assocGetNat_set_self : ∀ (l : List (Nat × String)) (k : Nat) (v : String),
    assocGetNat (assocSetNat l k v) k = some v
  | [], k, v => by simp [assocSetNat, assocGetNat]
  | p :: ps, k, v => by
    by_cases h : p.1 = k
    · simp [assocSetNat, h, assocGetNat]
    · simp [assocSetNat, h, assocGetNat, assocGetNat_set_self ps k v]

theorem assocGetNat_set_other : ∀ (l : List (Nat × String)) (k k2 : Nat) (v : String),
    k ≠ k2 → assocGetNat (assocSetNat l k v) k2 = assocGetNat l k2
  | [], k, k2, v, hne => by simp [assocSetNat, assocGetNat, hne]
  | p :: ps, k, k2, v, hne => by
    by_cases h : p.1 = k
    · simp [assocSetNat, h, assocGetNat, hne]
    · simp [assocSetNat, h, assocGetNat, assocGetNat_set_other ps k k2 v hne]

theorem assocGetStr_set_self : ∀ (l : List (String × String)) (k : String) (v : String),
    assocGetStr (assocSetStr l k v) k = some v
  | [], k, v => by simp [assocSetStr, assocGetStr]
  | p :: ps, k, v => by
    by_cases h : p.1 = k
    · simp [assocSetStr, h, assocGetStr]
    · simp [assocSetStr, h, assocGetStr, assocGetStr_set_self ps k v]

/-- Text of a processed field value is the raw value, whichever
representation was chosen. -/
theorem processFieldValue_text (v : String) : (processFieldValue v).text = v := by
  unfold processFieldValue
  split <;> rfl

/-- C6: the fingerprint function is pure and deterministic: repeated calls
on the same payload return the same string, permuting the insertion order
of the (duplicate-free) field mapping leaves the result unchanged, and
permuting the order of the label list leaves the result unchanged (labels
are canonicalized by sorting before hashing). -/
theorem C6_fingerprint_determinism (deck : String) (tags tags2 : List String)
    (fields fields2 : List (String × String))
    (hperm : fields.Perm fields2) (hnd : (fields.map Prod.fst).Nodup)
    (htags : tags.Perm tags2) :
    compute_note_hash deck tags fields = compute_note_hash deck tags fields ∧
    compute_note_hash deck tags fields = compute_note_hash deck tags2 fields2 := by
  refine ⟨rfl, ?_⟩
  have h1 : pySorted tags = pySorted tags2 := pySorted_eq_of_perm htags
  have hkeys : ((fields.map fun kv => (kv.1, encStr kv.2)).map Prod.fst).Nodup := by
    simpa [List.map_map, Function.comp_def] using hnd
  have h2 : sortEntries (fields.map fun kv => (kv.1, encStr kv.2)) =
      sortEntries (fields2.map fun kv => (kv.1, encStr kv.2)) :=
    sortEntries_eq_of_perm (hperm.map fun kv => (kv.1, encStr kv.2)) hkeys
  unfold compute_note_hash encObjSorted
  rw [h1, h2]

theorem C6_fingerprint_determinism_witness :
    compute_note_hash "D" ["y", "x"] [("A", "1"), ("B", "2")] =
      compute_note_hash "D" ["x", "y"] [("B", "2"), ("A", "1")] :=
  (C6_fingerprint_determinism "D" ["y", "x"] ["x", "y"]
    [("A", "1"), ("B", "2")] [("B", "2"), ("A", "1")]
    (by decide) (by decide) (by decide)).2

/-- C9: during pull, a fetched field value gets the block (preserved)
representation exactly when it contains a newline, or contains both markup
delimiters, or is longer than 60 characters; and the representation choice
never changes the record computed fingerprint. -/
theorem C9_pull_field_representation (v : String) (deck : String) (tags : List String)
    (fields : List (String × String)) :
    (processFieldValue v = YamlScalar.block v ↔
      ('\n' ∈ v.data ∨ ('<' ∈ v.data ∧ '>' ∈ v.data) ∨ 60 < v.length)) ∧
    (processFieldValue v = YamlScalar.plain v ↔
      ¬ ('\n' ∈ v.data ∨ ('<' ∈ v.data ∧ '>' ∈ v.data) ∨ 60 < v.length)) ∧
    compute_note_hash deck tags (fields.map fun kv => (kv.1, (processFieldValue kv.2).text)) =
      compute_note_hash deck tags fields := by
  have hblock : usesBlockStyle v = true ↔
      ('\n' ∈ v.data ∨ ('<' ∈ v.data ∧ '>' ∈ v.data) ∨ 60 < v.length) := by
    simp [usesBlockStyle, List.contains, List.elem_eq_mem, or_assoc]
  refine ⟨?_, ?_, ?_⟩
  · unfold processFieldValue
    constructor
    · intro h
      split at h
      · next hcond => exact hblock.mp hcond
      · exact absurd h (by simp)
    · intro h
      rw [if_pos (hblock.mpr h)]
  · unfold processFieldValue
    constructor
    · intro h
      split at h
      · exact absurd h (by simp)
      · next hcond => simpa [hblock] using hcond
    · intro h
      rw [if_neg]
      simpa [hblock] using h
  · have : (fields.map fun kv => (kv.1, (processFieldValue kv.2).text)) = fields := by
      simp [processFieldValue_text]
    rw [this]

/-- C10: the structure sync is atomic on error: when the computed model
fingerprint differs from the stored one, the style-update call is issued
and the stored hash is rewritten only if that call returns successfully;
if the call raises, the stored hash is left unchanged, so the structural
change is detected again on the next run. -/
theorem C10_structure_sync_atomic (styleOk : Bool) (model_name css : String)
    (templates : List (String × String × String)) (st : SyncState)
    (hdiff : get_model_hash st model_name ≠ some (compute_model_hash css templates)) :
    (sync_model_structure styleOk model_name css templates st).2.1 =
      [SyncEvent.styleUpdate model_name css] ∧
    (styleOk = false →
      (sync_model_structure styleOk model_name css templates st).1 = st ∧
      get_model_hash (sync_model_structure styleOk model_name css templates st).1 model_name ≠
        some (compute_model_hash css templates)) ∧
    (styleOk = true →
      get_model_hash (sync_model_structure styleOk model_name css templates st).1 model_name =
        some (compute_model_hash css templates)) := by
  have hne : some (compute_model_hash css templates) ≠ get_model_hash st model_name :=
    fun h => hdiff h.symm
  unfold sync_model_structure
  rw [if_pos hne]
  cases styleOk
  · exact ⟨rfl, fun _ => ⟨rfl, hdiff⟩, fun h => absurd h (by decide)⟩
  · exact ⟨rfl, fun h => absurd h (by decide), fun _ =>
      assocGetStr_set_self st.models model_name (compute_model_hash css templates)⟩

theorem C10_structure_sync_atomic_witness :
    (get_model_hash (SyncState.mk [] []) "M" ≠ some (compute_model_hash "x" []) ∧
      (sync_model_structure false "M" "x" [] (SyncState.mk [] [])).1 = SyncState.mk [] []) ∧
    get_model_hash (sync_model_structure true "M" "x" [] (SyncState.mk [] [])).1 "M" =
      some (compute_model_hash "x" []) :=
  ⟨⟨by decide,
    ((C10_structure_sync_atomic false "M" "x" [] (SyncState.mk [] []) (by decide)).2.1 rfl).1⟩,
   (C10_structure_sync_atomic true "M" "x" [] (SyncState.mk [] []) (by decide)).2.2 rfl⟩

/-- C7 amended: the non-empty-fields constraint exists only as the
AnkiNote model validator; the sync pass loads raw YAML mappings and never
applies it, so a record with an empty field mapping is not skipped: with no
identifier it is classified CREATE and its empty-fields payload is built
for submission. -/
theorem C7_empty_fields_not_validated (model_name : String) (st : SyncState) (note : Note)
    (hf : note.fields = []) (hid : note.id = none) :
    classifyNote model_name st note =
      NoteDecision.create (CreatePayload.mk note.deck model_name [] note.tags) ∧
    check_fields_not_empty note.fields =
      Except.error "Fields dictionary cannot be empty" := by
  constructor
  · unfold classifyNote
    rw [hid, hf]
  · rw [hf]
    rfl

theorem C7_empty_fields_not_validated_witness :
    classifyNote "M" (SyncState.mk [] []) (Note.mk none "Default" [] []) =
      NoteDecision.create (CreatePayload.mk "Default" "M" [] []) ∧
    check_fields_not_empty (Note.mk none "Default" [] ([] : List (String × String))).fields =
      Except.error "Fields dictionary cannot be empty" := by
  have h := C7_empty_fields_not_validated "M" (SyncState.mk [] [])
    (Note.mk none "Default" [] []) rfl rfl
  exact ⟨h.1, h.2⟩

/-- C7 counterexample: a malformed record with an empty field mapping is
not skipped by the sync pass: it is classified CREATE and its payload is
submitted in the addNotes call of the pass. -/
theorem C7_counterexample :
    (classifyAll "M" (SyncState.mk [] []) [Note.mk none "Default" [] []]).to_create =
      [CreatePayload.mk "Default" "M" [] []] ∧
    (syncNotes (RemoteBehavior.mk (Except.ok [none]) (fun _ => true)) "M"
        [Note.mk none "Default" [] []] (SyncState.mk [] [])).2.2 =
      [SyncEvent.addNotesCall [CreatePayload.mk "Default" "M" [] []],
       SyncEvent.fileRewrite [Note.mk none "Default" [] []]] := by
  exact ⟨by decide, by decide⟩

/-- Multi calls among the events of a phase. -/
def multiCalls (evs : List SyncEvent) : List (List BatchAction) :=
  evs.filterMap fun e => match e with
    | SyncEvent.multiCall c => some c
    | _ => none

theorem runChunksFuel_all_ok (ok : Nat → Bool) (hok : ∀ k, ok k = true) :
    ∀ (fuel k : Nat) (batch : List BatchAction), batch.length ≤ fuel →
      (runChunksFuel ok fuel k batch).2.length = (batch.length + 499) / 500 ∧
      ∀ e ∈ (runChunksFuel ok fuel k batch).2, ∃ c, e = SyncEvent.multiCall c ∧ c.length ≤ 500
  | 0, k, batch, hle => by
    have hb : batch = [] := List.eq_nil_of_length_eq_zero (Nat.le_zero.mp hle)
    subst hb
    exact ⟨rfl, by intro e he; cases he⟩
  | Nat.succ fuel, k, [], _ => ⟨rfl, by intro e he; cases he⟩
  | Nat.succ fuel, k, a :: rest, hle => by
    have hlen : ((a :: rest).drop 500).length ≤ fuel := by
      simp only [List.length_drop, List.length_cons]
      simp only [List.length_cons] at hle
      omega
    obtain ⟨ih1, ih2⟩ := runChunksFuel_all_ok ok hok fuel (k + 1) ((a :: rest).drop 500) hlen
    have hred : runChunksFuel ok (Nat.succ fuel) k (a :: rest) =
        ((runChunksFuel ok fuel (k + 1) ((a :: rest).drop 500)).1,
          SyncEvent.multiCall ((a :: rest).take 500) ::
            (runChunksFuel ok fuel (k + 1) ((a :: rest).drop 500)).2) := by
      rw [runChunksFuel]
      rw [if_pos (hok k)]
    rw [hred]
    constructor
    · simp only [List.length_cons, ih1, List.length_drop]
      omega
    · intro e he
      rcases List.mem_cons.mp he with rfl | he2
      · refine ⟨(a :: rest).take 500, rfl, ?_⟩
        simp [List.length_take]
      · exact ih2 e he2

theorem runChunksFuel_events_multi (ok : Nat → Bool) :
    ∀ (fuel k : Nat) (batch : List BatchAction),
      ∀ e ∈ (runChunksFuel ok fuel k batch).2, ∃ c, e = SyncEvent.multiCall c
  | 0, _, batch, e, he => by
    simp only [runChunksFuel] at he
    cases he
  | Nat.succ fuel, k, [], e, he => by cases he
  | Nat.succ fuel, k, a :: rest, e, he => by
    rw [runChunksFuel] at he
    by_cases hk : ok k = true
    · rw [if_pos hk] at he
      rcases List.mem_cons.mp he with rfl | he2
      · exact ⟨_, rfl⟩
      · exact runChunksFuel_events_multi ok fuel (k + 1) ((a :: rest).drop 500) e he2
    · rw [if_neg hk] at he
      rcases List.mem_cons.mp he with rfl | he2
      · exact ⟨_, rfl⟩
      · cases he2

theorem multiCalls_all (evs : List SyncEvent)
    (h : ∀ e ∈ evs, ∃ c, e = SyncEvent.multiCall c ∧ c.length ≤ 500) :
    (multiCalls evs).length = evs.length ∧ ∀ c ∈ multiCalls evs, c.length ≤ 500 := by
  induction evs with
  | nil => exact ⟨rfl, by intro c hc; cases hc⟩
  | cons e es ih =>
    obtain ⟨c, rfl, hc⟩ := h e (by simp)
    obtain ⟨ih1, ih2⟩ := ih (fun d hd => h d (List.mem_cons_of_mem _ hd))
    have hm : multiCalls (SyncEvent.multiCall c :: es) = c :: multiCalls es := by
      simp [multiCalls, List.filterMap_cons]
    rw [hm]
    constructor
    · simp [ih1]
    · intro d hd
      rcases List.mem_cons.mp hd with rfl | hd2
      · exact hc
      · exact ih2 d hd2

/-- C8: with no failing call, the update phase issues exactly ceil(N/500)
multi calls for N pending update sub-operations — (N + 499) / 500 in
natural division — and every call carries at most 500 sub-operations. -/
theorem C8_update_chunking (ok : Nat → Bool) (batch : List BatchAction)
    (dirty : List (Nat × String)) (st : SyncState) (hok : ∀ k, ok k = true) :
    (multiCalls (runUpdatePhase ok batch dirty st).2).length = (batch.length + 499) / 500 ∧
    ∀ c ∈ multiCalls (runUpdatePhase ok batch dirty st).2, c.length ≤ 500 := by
  obtain ⟨h1, h2⟩ := runChunksFuel_all_ok ok hok batch.length 0 batch (le_refl _)
  obtain ⟨hm1, hm2⟩ := multiCalls_all _ h2
  have hev : (runUpdatePhase ok batch dirty st).2 =
      (runChunksFuel ok batch.length 0 batch).2 := rfl
  rw [hev]
  exact ⟨hm1.trans h1, hm2⟩

theorem C8_update_chunking_witness :
    (multiCalls (runUpdatePhase (fun _ => true)
        (List.replicate 1200 (BatchAction.updateNoteTags 1 [])) [] (SyncState.mk [] [])).2).length
      = 3 := by
  have h := (C8_update_chunking (fun _ => true)
    (List.replicate 1200 (BatchAction.updateNoteTags 1 [])) [] (SyncState.mk [] [])
    (fun _ => rfl)).1
  rw [List.length_replicate] at h
  exact h.trans (by decide)

theorem applyDirty_get_of_not_mem : ∀ (dirty : List (Nat × String)) (st : SyncState) (k : Nat),
    k ∉ dirty.map Prod.fst → get_note_hash (applyDirty dirty st) k = get_note_hash st k
  | [], _, _, _ => rfl
  | p :: rest, st, k, h => by
    have h2 : ¬ (k = p.1 ∨ k ∈ rest.map Prod.fst) := by
      simpa [List.mem_cons] using h
    rw [applyDirty]
    rw [applyDirty_get_of_not_mem rest _ k (fun hc => h2 (Or.inr hc))]
    unfold get_note_hash update_note_hash
    exact assocGetNat_set_other st.notes p.1 k p.2 (fun hc => h2 (Or.inl hc.symm))

theorem applyDirty_get_mem : ∀ (dirty : List (Nat × String)) (st : SyncState) (p : Nat × String),
    p ∈ dirty → (dirty.map Prod.fst).Nodup →
    get_note_hash (applyDirty dirty st) p.1 = some p.2
  | [], _, p, hmem, _ => absurd hmem (by simp)
  | q :: rest, st, p, hmem, hnd => by
    have hnd2 : q.1 ∉ rest.map Prod.fst ∧ (rest.map Prod.fst).Nodup := by
      simpa [List.map_cons, List.nodup_cons] using hnd
    rcases List.mem_cons.mp hmem with rfl | hmem2
    · rw [applyDirty]
      rw [applyDirty_get_of_not_mem rest _ p.1 hnd2.1]
      unfold get_note_hash update_note_hash
      exact assocGetNat_set_self st.notes p.1 p.2
    · rw [applyDirty]
      exact applyDirty_get_mem rest (update_note_hash st q.1 q.2) p hmem2 hnd2.2

/-- C1 amended: the update phase stores the new hashes only after every
chunk has succeeded: the chunk loop and the hash updates share one try
block, so any chunk failure aborts the loop and skips all hash updates —
records of earlier, successful chunks included — and every
update-classified record is re-classified UPDATE on the next run.  When
all chunks succeed, the hash of every dirty record is stored. -/
theorem C1_update_hashes_all_or_nothing (ok : Nat → Bool) (batch : List BatchAction)
    (dirty : List (Nat × String)) (st : SyncState) :
    ((runChunks ok batch).1 = false → (runUpdatePhase ok batch dirty st).1 = st) ∧
    ((runChunks ok batch).1 = true → (dirty.map Prod.fst).Nodup →
      ∀ p ∈ dirty, get_note_hash (runUpdatePhase ok batch dirty st).1 p.1 = some p.2) := by
  constructor
  · intro hfail
    simp only [runUpdatePhase, runChunks] at hfail ⊢
    simp [hfail]
  · intro hsucc hnd p hp
    simp only [runUpdatePhase, runChunks] at hsucc ⊢
    simp only [hsucc, if_true]
    exact applyDirty_get_mem dirty st p hp hnd

theorem C1_update_hashes_all_or_nothing_witness :
    get_note_hash (runUpdatePhase (fun _ => false) [BatchAction.updateNoteTags 1 []]
      [(5, "h")] (SyncState.mk [] [])).1 5 = none ∧
    get_note_hash (runUpdatePhase (fun _ => true) [BatchAction.updateNoteTags 1 []]
      [(5, "h")] (SyncState.mk [] [])).1 5 = some "h" := by
  constructor
  · have h := (C1_update_hashes_all_or_nothing (fun _ => false)
      [BatchAction.updateNoteTags 1 []] [(5, "h")] (SyncState.mk [] [])).1 (by decide)
    rw [h]
    rfl
  · exact (C1_update_hashes_all_or_nothing (fun _ => true)
      [BatchAction.updateNoteTags 1 []] [(5, "h")] (SyncState.mk [] [])).2
      (by decide) (by decide) (5, "h") (by decide)

def c1notes : List Note := (List.range 251).map fun i => Note.mk (some (i + 1)) "D" [] [("F", "x")]

def c1st : SyncState := SyncState.mk [] []

def c1acc : ClassifyAcc := classifyAll "M" c1st c1notes

def c1ok : Nat → Bool := fun k => k == 0

def c1res : SyncState × List SyncEvent :=
  runUpdatePhase c1ok c1acc.batch_actions c1acc.dirty_note_hashes c1st

/-- C1 counterexample: 251 dirty records yield 502 update sub-operations,
hence two chunks; the first chunk call succeeds and the second fails, yet
the stored hash of record 1 — a record of the successful first chunk — is
not updated (the failed run leaves the whole state untouched), refuting
the claimed per-chunk state update. -/
theorem C1_counterexample :
    c1acc.batch_actions.length = 502 ∧
    (runChunks c1ok c1acc.batch_actions).2.length = 2 ∧
    c1ok 0 = true ∧ c1ok 1 = false ∧
    assocGetNat c1acc.dirty_note_hashes 1 = some (compute_note_hash "D" [] [("F", "x")]) ∧
    get_note_hash c1res.1 1 = none := by
  exact ⟨by decide, by decide, rfl, rfl, by decide, by decide⟩

/-- C5 amended: within one collection sync pass the bulk-create call and
the in-memory id back-assignment happen first, before any update batch is
submitted; the local file rewrite for created records is the final step of
the pass, after all update batches — not before them. -/
theorem C5_phase_order (r : RemoteBehavior) (model_name : String) (notes : List Note)
    (st : SyncState) :
    ∃ createEvs updateEvs rewriteEvs,
      (syncNotes r model_name notes st).2.2 = createEvs ++ updateEvs ++ rewriteEvs ∧
      (∀ e ∈ createEvs, ∃ c, e = SyncEvent.addNotesCall c) ∧
      (∀ e ∈ updateEvs, ∃ a, e = SyncEvent.multiCall a) ∧
      (∀ e ∈ rewriteEvs, ∃ ns, e = SyncEvent.fileRewrite ns) := by
  refine ⟨(createPhase r (classifyAll model_name st notes) notes st).2.2,
    (updatePhase r (classifyAll model_name st notes)
      (createPhase r (classifyAll model_name st notes) notes st).2.1).2,
    rewritePhase (classifyAll model_name st notes)
      (createPhase r (classifyAll model_name st notes) notes st).1,
    rfl, ?_, ?_, ?_⟩
  · intro e he
    unfold createPhase at he
    split at he
    · cases he
    · split at he
      · rcases List.mem_cons.mp he with rfl | he2
        · exact ⟨_, rfl⟩
        · cases he2
      · rcases List.mem_cons.mp he with rfl | he2
        · exact ⟨_, rfl⟩
        · cases he2
  · intro e he
    unfold updatePhase at he
    split at he
    · cases he
    · exact runChunksFuel_events_multi r.multiOk _ 0 _ e he
  · intro e he
    unfold rewritePhase at he
    split at he
    · cases he
    · rcases List.mem_cons.mp he with rfl | he2
      · exact ⟨_, rfl⟩
      · cases he2

def c5rem : RemoteBehavior := RemoteBehavior.mk (Except.ok [some 101]) (fun _ => true)

def c5notes : List Note :=
  [Note.mk none "Default" ["new"] [("Front", "Hello")], Note.mk (some 7) "D" [] [("F", "y")]]

def c5st : SyncState := SyncState.mk [(7, "stale")] []

/-- C5 counterexample: in a pass with one new and one modified record, the
pass issues the create call (first event), then the update batch (second
event), and only then the file rewrite for the created record (third and
final event) — so an UPDATE batch is submitted before the file rewrite has
happened, refuting the claimed order. -/
theorem C5_counterexample :
    (syncNotes c5rem "Basic" c5notes c5st).2.2 =
      [SyncEvent.addNotesCall [CreatePayload.mk "Default" "Basic" [("Front", "Hello")] ["new"]],
       SyncEvent.multiCall [BatchAction.updateNoteFields 7 [("F", "y")],
         BatchAction.updateNoteTags 7 []],
       SyncEvent.fileRewrite [Note.mk (some 101) "Default" ["new"] [("Front", "Hello")],
         Note.mk (some 7) "D" [] [("F", "y")]]] := by
  decide

theorem sortEntries_note (dv fv tv : List Char) :
    sortEntries [("deck", dv), ("fields", fv), ("tags", tv)] =
      [("deck", dv), ("fields", fv), ("tags", tv)] := by
  unfold sortEntries
  simp +decide [List.insertionSort, List.orderedInsert]

/-- Injectivity of the note fingerprint in the container component: two
payloads with the same tags and fields but different decks serialize to
different canonical strings. -/
theorem compute_note_hash_deck_inj {d1 d2 : String} {tags : List String}
    {fields : List (String × String)}
    (h : compute_note_hash d1 tags fields = compute_note_hash d2 tags fields) : d1 = d2 := by
  unfold compute_note_hash encObjSorted at h
  rw [sortEntries_note, sortEntries_note] at h
  have h2 := congrArg String.data h
  simp only [encObj, List.map_cons, List.map_nil, encParts,
    List.append_assoc, List.cons_append, List.nil_append,
    List.cons.injEq, List.append_right_inj, true_and] at h2
  exact (encStr_append_inj h2).1

/-- Injectivity of the note fingerprint in the label component: two
payloads with the same deck and fields have equal fingerprints only when
their sorted tag lists coincide. -/
theorem compute_note_hash_tags_inj {deck : String} {t1 t2 : List String}
    {fields : List (String × String)}
    (h : compute_note_hash deck t1 fields = compute_note_hash deck t2 fields) :
    pySorted t1 = pySorted t2 := by
  unfold compute_note_hash encObjSorted encArr at h
  rw [sortEntries_note, sortEntries_note] at h
  have h2 := congrArg String.data h
  simp only [encObj, List.map_cons, List.map_nil, encParts,
    List.append_assoc, List.cons_append, List.nil_append,
    List.cons.injEq, List.append_right_inj, true_and] at h2
  exact (encStrParts_inj (pySorted t1) (pySorted t2) _ _ h2).1

theorem setNoteId_getElem_other : ∀ (l : List Note) (i j : Nat) (nid : Nat), i ≠ j →
    (setNoteId l i nid)[j]? = l[j]?
  | [], _, _, _, _ => rfl
  | n :: ns, 0, j, nid, hne => by
    cases j with
    | zero => exact absurd rfl hne
    | succ j => simp [setNoteId]
  | n :: ns, Nat.succ i, j, nid, hne => by
    cases j with
    | zero => simp [setNoteId]
    | succ j =>
      simp only [setNoteId, List.getElem?_cons_succ]
      exact setNoteId_getElem_other ns i j nid (fun hc => hne (by rw [hc]))

theorem setNoteId_getElem_self : ∀ (l : List Note) (i : Nat) (nid : Nat),
    (setNoteId l i nid)[i]? = (l[i]?).map fun n => Note.mk (some nid) n.deck n.tags n.fields
  | [], _, _ => rfl
  | n :: ns, 0, nid => by simp [setNoteId]
  | n :: ns, Nat.succ i, nid => by
    simp only [setNoteId, List.getElem?_cons_succ]
    exact setNoteId_getElem_self ns i nid

theorem applyCreateResults_notes_preserved :
    ∀ (ids : List (Option Nat)) (ps : List CreatePayload) (ixs : List Nat)
      (notes : List Note) (st : SyncState) (ix : Nat), ix ∉ ixs →
      ((applyCreateResults ids ps ixs notes st).1)[ix]? = notes[ix]?
  | [], _, _, _, _, _, _ => rfl
  | _ :: _, [], _, _, _, _, _ => rfl
  | _ :: _, _ :: _, [], _, _, _, _ => rfl
  | oid :: ids, p :: ps, ix0 :: ixs, notes, st, ix, hix => by
    have hix0 : ix0 ≠ ix := fun hc => hix (by rw [← hc]; exact List.mem_cons_self _ _)
    have hixs : ix ∉ ixs := fun hc => hix (List.mem_cons_of_mem _ hc)
    cases oid with
    | none =>
      simp only [applyCreateResults]
      exact applyCreateResults_notes_preserved ids ps ixs notes st ix hixs
    | some nid =>
      simp only [applyCreateResults]
      by_cases hz : nid ≠ 0
      · rw [if_pos hz]
        rw [applyCreateResults_notes_preserved ids ps ixs _ _ ix hixs]
        exact setNoteId_getElem_other notes ix0 ix nid hix0
      · rw [if_neg hz]
        exact applyCreateResults_notes_preserved ids ps ixs notes st ix hixs

theorem applyCreateResults_state_preserved :
    ∀ (ids : List (Option Nat)) (ps : List CreatePayload) (ixs : List Nat)
      (notes : List Note) (st : SyncState) (k : Nat), some k ∉ ids →
      get_note_hash (applyCreateResults ids ps ixs notes st).2 k = get_note_hash st k
  | [], _, _, _, _, _, _ => rfl
  | _ :: _, [], _, _, _, _, _ => rfl
  | _ :: _, _ :: _, [], _, _, _, _ => rfl
  | oid :: ids, p :: ps, ix0 :: ixs, notes, st, k, hk => by
    have hkids : some k ∉ ids := fun hc => hk (List.mem_cons_of_mem _ hc)
    cases oid with
    | none =>
      simp only [applyCreateResults]
      exact applyCreateResults_state_preserved ids ps ixs notes st k hkids
    | some nid =>
      have hnk : nid ≠ k := fun hc => hk (by rw [hc]; exact List.mem_cons_self _ _)
      simp only [applyCreateResults]
      by_cases hz : nid ≠ 0
      · rw [if_pos hz]
        rw [applyCreateResults_state_preserved ids ps ixs _ _ k hkids]
        unfold get_note_hash update_note_hash
        exact assocGetNat_set_other st.notes nid k _ hnk
      · rw [if_neg hz]
        exact applyCreateResults_state_preserved ids ps ixs notes st k hkids

/-- C3: when the bulk-create response carries one entry per submitted
record, exactly the records with a truthy returned id receive that id in
the in-memory notes list together with a state hash entry (the fingerprint
of the submitted payload) under that id; a record with a null entry is
left untouched — still identifier-less — and any record without an
identifier is classified CREATE again on the next run. -/
theorem C3_create_null_entry_handling : ∀ (ids : List (Option Nat)) (ps : List CreatePayload)
    (ixs : List Nat) (notes : List Note) (st : SyncState),
    ixs.Nodup → (ids.filterMap id).Nodup →
    ((∀ (i nid ix : Nat) (p : CreatePayload),
      ids[i]? = some (some nid) → nid ≠ 0 → ixs[i]? = some ix → ps[i]? = some p →
      ((applyCreateResults ids ps ixs notes st).1)[ix]? =
        (notes[ix]?).map (fun n => Note.mk (some nid) n.deck n.tags n.fields) ∧
      get_note_hash (applyCreateResults ids ps ixs notes st).2 nid =
        some (compute_note_hash p.deckName p.tags p.fields)) ∧
    (∀ (i ix : Nat), ids[i]? = some none → ixs[i]? = some ix →
      ((applyCreateResults ids ps ixs notes st).1)[ix]? = notes[ix]?) ∧
    (∀ (m : String) (st2 : SyncState) (n : Note), n.id = none →
      classifyNote m st2 n = NoteDecision.create (CreatePayload.mk n.deck m n.fields n.tags))) := by
  intro ids
  induction ids with
  | nil =>
    intro ps ixs notes st _ _
    refine ⟨?_, ?_, ?_⟩
    · intro i nid ix p hid _ _ _
      simp at hid
    · intro i ix hid _
      simp at hid
    · intro m st2 n hn
      simp [classifyNote, hn]
  | cons oid ids ih =>
    intro ps ixs notes st hnd hids
    cases ps with
    | nil =>
      refine ⟨?_, ?_, ?_⟩
      · intro i nid ix p _ _ _ hp
        simp at hp
      · intro i ix hid hix
        simp only [applyCreateResults]
      · intro m st2 n hn
        simp [classifyNote, hn]
    | cons p ps =>
      cases ixs with
      | nil =>
        refine ⟨?_, ?_, ?_⟩
        · intro i nid ix p2 _ _ hix _
          simp at hix
        · intro i ix _ hix
          simp at hix
        · intro m st2 n hn
          simp [classifyNote, hn]
      | cons ix0 ixs =>
        have hnd0 : ix0 ∉ ixs ∧ ixs.Nodup := by simpa [List.nodup_cons] using hnd
        cases oid with
        | none =>
          have hids2 : (ids.filterMap id).Nodup := by simpa [List.filterMap_cons] using hids
          obtain ⟨ih1, ih2, ih3⟩ := ih ps ixs notes st hnd0.2 hids2
          refine ⟨?_, ?_, ih3⟩
          · intro i nid ix p2 hid hnz hix hp
            cases i with
            | zero => simp at hid
            | succ i =>
              simp only [List.getElem?_cons_succ] at hid hix hp
              simpa only [applyCreateResults] using ih1 i nid ix p2 hid hnz hix hp
          · intro i ix hid hix
            cases i with
            | zero =>
              have hix0 : ix0 = ix := by simpa using hix
              subst hix0
              simp only [applyCreateResults]
              exact applyCreateResults_notes_preserved ids ps ixs notes st ix0 hnd0.1
            | succ i =>
              simp only [List.getElem?_cons_succ] at hid hix
              simpa only [applyCreateResults] using ih2 i ix hid hix
        | some nid0 =>
          by_cases hz : nid0 = 0
          · subst hz
            have hids2 : (ids.filterMap id).Nodup ∧ 0 ∉ ids.filterMap id := by
              have h0 : List.filterMap id (some 0 :: ids) = 0 :: ids.filterMap id := by
                simp [List.filterMap_cons]
              rw [h0] at hids
              exact ⟨(List.nodup_cons.mp hids).2, (List.nodup_cons.mp hids).1⟩
            obtain ⟨ih1, ih2, ih3⟩ := ih ps ixs notes st hnd0.2 hids2.1
            refine ⟨?_, ?_, ih3⟩
            · intro i nid ix p2 hid hnz hix hp
              cases i with
              | zero =>
                have h0 : nid = 0 := by simpa using hid.symm
                exact absurd h0 hnz
              | succ i =>
                simp only [List.getElem?_cons_succ] at hid hix hp
                have hred : applyCreateResults (some 0 :: ids) (p :: ps) (ix0 :: ixs) notes st =
                    applyCreateResults ids ps ixs notes st := by
                  simp [applyCreateResults]
                rw [hred]
                exact ih1 i nid ix p2 hid hnz hix hp
            · intro i ix hid hix
              cases i with
              | zero => simp at hid
              | succ i =>
                simp only [List.getElem?_cons_succ] at hid hix
                have hred : applyCreateResults (some 0 :: ids) (p :: ps) (ix0 :: ixs) notes st =
                    applyCreateResults ids ps ixs notes st := by
                  simp [applyCreateResults]
                rw [hred]
                exact ih2 i ix hid hix
          · have hids2 : (ids.filterMap id).Nodup ∧ some nid0 ∉ ids := by
              have h0 : List.filterMap id (some nid0 :: ids) = nid0 :: ids.filterMap id := by
                simp [List.filterMap_cons]
              rw [h0] at hids
              refine ⟨(List.nodup_cons.mp hids).2, fun hc => (List.nodup_cons.mp hids).1 ?_⟩
              exact List.mem_filterMap.mpr ⟨some nid0, hc, rfl⟩
            have hred : applyCreateResults (some nid0 :: ids) (p :: ps) (ix0 :: ixs) notes st =
                applyCreateResults ids ps ixs (setNoteId notes ix0 nid0)
                  (update_note_hash st nid0
                    (compute_note_hash p.deckName p.tags p.fields)) := by
              simp [applyCreateResults, hz]
            obtain ⟨ih1, ih2, ih3⟩ := ih ps ixs (setNoteId notes ix0 nid0)
              (update_note_hash st nid0 (compute_note_hash p.deckName p.tags p.fields))
              hnd0.2 hids2.1
            refine ⟨?_, ?_, ih3⟩
            · intro i nid ix p2 hid hnz hix hp
              cases i with
              | zero =>
                have hnid : nid0 = nid := by simpa using hid
                have hixeq : ix0 = ix := by simpa using hix
                have hpeq : p = p2 := by simpa using hp
                subst hnid
                subst hixeq
                subst hpeq
                rw [hred]
                constructor
                · rw [applyCreateResults_notes_preserved ids ps ixs _ _ ix0 hnd0.1]
                  exact setNoteId_getElem_self notes ix0 nid0
                · rw [applyCreateResults_state_preserved ids ps ixs _ _ nid0 hids2.2]
                  unfold get_note_hash update_note_hash
                  exact assocGetNat_set_self st.notes nid0 _
              | succ i =>
                simp only [List.getElem?_cons_succ] at hid hix hp
                rw [hred]
                have hmem : ix ∈ ixs := List.getElem?_mem hix
                have hne : ix0 ≠ ix := fun hc => hnd0.1 (hc ▸ hmem)
                obtain ⟨hn1, hn2⟩ := ih1 i nid ix p2 hid hnz hix hp
                refine ⟨?_, hn2⟩
                rw [hn1, setNoteId_getElem_other notes ix0 ix nid0 hne]
            · intro i ix hid hix
              cases i with
              | zero => simp at hid
              | succ i =>
                simp only [List.getElem?_cons_succ] at hid hix
                rw [hred]
                have hmem : ix ∈ ixs := List.getElem?_mem hix
                have hne : ix0 ≠ ix := fun hc => hnd0.1 (hc ▸ hmem)
                rw [ih2 i ix hid hix, setNoteId_getElem_other notes ix0 ix nid0 hne]

def c3ids : List (Option Nat) := [some 101, none, some 103]

def c3pays : List CreatePayload :=
  [CreatePayload.mk "Default" "M" [("F", "a")] [],
   CreatePayload.mk "Default" "M" [("F", "b")] [],
   CreatePayload.mk "Default" "M" [("F", "c")] []]

def c3notes : List Note :=
  [Note.mk none "Default" [] [("F", "a")], Note.mk none "Default" [] [("F", "b")],
   Note.mk none "Default" [] [("F", "c")]]

def c3res : List Note × SyncState :=
  applyCreateResults c3ids c3pays [0, 1, 2] c3notes (SyncState.mk [] [])

theorem C3_create_null_entry_handling_witness :
    (c3res.1)[0]? = some (Note.mk (some 101) "Default" [] [("F", "a")]) ∧
    get_note_hash c3res.2 101 = some (compute_note_hash "Default" [] [("F", "a")]) ∧
    (c3res.1)[1]? = some (Note.mk none "Default" [] [("F", "b")]) ∧
    (c3res.1)[2]? = some (Note.mk (some 103) "Default" [] [("F", "c")]) ∧
    classifyNote "M" c3res.2 (Note.mk none "Default" [] [("F", "b")]) =
      NoteDecision.create (CreatePayload.mk "Default" "M" [("F", "b")] []) := by
  have h := C3_create_null_entry_handling c3ids c3pays [0, 1, 2] c3notes (SyncState.mk [] [])
    (by decide) (by decide)
  refine ⟨?_, ?_, ?_, ?_, ?_⟩
  · exact ((h.1 0 101 0 (CreatePayload.mk "Default" "M" [("F", "a")] [])
      rfl (by decide) rfl rfl).1).trans (by decide)
  · exact (h.1 0 101 0 (CreatePayload.mk "Default" "M" [("F", "a")] [])
      rfl (by decide) rfl rfl).2
  · exact (h.2.1 1 1 rfl rfl).trans (by decide)
  · exact ((h.1 2 103 2 (CreatePayload.mk "Default" "M" [("F", "c")] [])
      rfl (by decide) rfl rfl).1).trans (by decide)
  · exact h.2.2 "M" c3res.2 (Note.mk none "Default" [] [("F", "b")]) rfl

/-- C4: for a record carrying an identifier, the classification issues no
remote action when its fingerprint equals the stored hash, and exactly one
field-update plus one tag-update sub-operation when the fingerprint
differs or no hash is stored; and changing only the deck, or only the tag
set, with identical field text, changes the fingerprint and therefore
triggers UPDATE. -/
theorem C4_update_gating (model_name : String) (st : SyncState) (note : Note) (nid : Nat)
    (hid : note.id = some nid) (hnz : nid ≠ 0) :
    (get_note_hash st nid = some (compute_note_hash note.deck note.tags note.fields) →
      classifyNote model_name st note = NoteDecision.unchanged) ∧
    (get_note_hash st nid ≠ some (compute_note_hash note.deck note.tags note.fields) →
      classifyNote model_name st note =
        NoteDecision.update (BatchAction.updateNoteFields nid note.fields)
          (BatchAction.updateNoteTags nid note.tags) nid
          (compute_note_hash note.deck note.tags note.fields)) ∧
    (∀ deck2, deck2 ≠ note.deck →
      compute_note_hash deck2 note.tags note.fields ≠
        compute_note_hash note.deck note.tags note.fields) ∧
    (∀ tags2, ¬ (∀ x, x ∈ tags2 ↔ x ∈ note.tags) →
      compute_note_hash note.deck tags2 note.fields ≠
        compute_note_hash note.deck note.tags note.fields) := by
  refine ⟨?_, ?_, ?_, ?_⟩
  · intro heq
    simp only [classifyNote, hid]
    rw [if_neg hnz, if_neg (not_not_intro heq)]
  · intro hne
    simp only [classifyNote, hid]
    rw [if_neg hnz, if_pos hne]
  · intro deck2 hne hcontra
    exact hne (compute_note_hash_deck_inj hcontra)
  · intro tags2 hne hcontra
    apply hne
    intro x
    have hs := compute_note_hash_tags_inj hcontra
    constructor
    · intro hx
      have hx2 : x ∈ pySorted tags2 := ((List.perm_insertionSort pyLe tags2).mem_iff).mpr hx
      rw [hs] at hx2
      exact ((List.perm_insertionSort pyLe note.tags).mem_iff).mp hx2
    · intro hx
      have hx2 : x ∈ pySorted note.tags :=
        ((List.perm_insertionSort pyLe note.tags).mem_iff).mpr hx
      rw [← hs] at hx2
      exact ((List.perm_insertionSort pyLe tags2).mem_iff).mp hx2

theorem C4_update_gating_witness :
    classifyNote "M" (SyncState.mk [(5, compute_note_hash "D" ["t"] [("F", "x")])] [])
      (Note.mk (some 5) "D" ["t"] [("F", "x")]) = NoteDecision.unchanged ∧
    classifyNote "M" (SyncState.mk [] []) (Note.mk (some 5) "D" ["t"] [("F", "x")]) =
      NoteDecision.update (BatchAction.updateNoteFields 5 [("F", "x")])
        (BatchAction.updateNoteTags 5 ["t"]) 5 (compute_note_hash "D" ["t"] [("F", "x")]) ∧
    compute_note_hash "E" ["t"] [("F", "x")] ≠ compute_note_hash "D" ["t"] [("F", "x")] ∧
    compute_note_hash "D" ["u"] [("F", "x")] ≠ compute_note_hash "D" ["t"] [("F", "x")] := by
  have h1 := C4_update_gating "M"
    (SyncState.mk [(5, compute_note_hash "D" ["t"] [("F", "x")])] [])
    (Note.mk (some 5) "D" ["t"] [("F", "x")]) 5 rfl (by decide)
  have h2 := C4_update_gating "M" (SyncState.mk [] [])
    (Note.mk (some 5) "D" ["t"] [("F", "x")]) 5 rfl (by decide)
  refine ⟨h1.1 (by decide), h2.2.1 (by decide), h1.2.2.1 "E" (by decide), ?_⟩
  refine h1.2.2.2 ["u"] (fun hall => ?_)
  have h3 := (hall "u").mp (by simp)
  simp only [List.mem_singleton] at h3
  exact absurd h3 (by decide)

def c2infos : List NoteInfo :=
  [NoteInfo.mk 555 ["new"] [("Front", "Hello"), ("Back", "Xin chao")] [1]]

def c2map : List (Nat × String) := [(1, "Default")]

def c2fileSt : SyncState := SyncState.mk [] []

def c2pull : List Note × SyncState := pullSaveNotes c2map c2infos c2fileSt

def c2rem : RemoteBehavior := RemoteBehavior.mk (Except.ok []) (fun _ => true)

def c2sync : List Note × SyncState × List SyncEvent :=
  syncNotes c2rem "Basic" c2pull.1 (pull_run_saved_state c2fileSt)

/-- C2 (code-bug evaluation): during a pull the fingerprint of the pulled
record is stored in the in-memory StateManager instance (first conjunct),
and against that in-memory state the pulled record would indeed be
classified UNCHANGED (third conjunct); but PullService never calls
save_state, so the state a subsequent Sync run loads is the untouched
on-disk state (pull_run_saved_state), against which the pulled record is
classified UPDATE and a remote write batch is issued for it (second
conjunct) — not zero remote write calls. -/
theorem C2_pull_then_sync_writes :
    get_note_hash c2pull.2 555 =
      some (compute_note_hash "Default" ["new"] [("Front", "Hello"), ("Back", "Xin chao")]) ∧
    c2sync.2.2 =
      [SyncEvent.multiCall
        [BatchAction.updateNoteFields 555 [("Front", "Hello"), ("Back", "Xin chao")],
         BatchAction.updateNoteTags 555 ["new"]]] ∧
    (∀ n ∈ c2pull.1, classifyNote "Basic" c2pull.2 n = NoteDecision.unchanged) := by
  exact ⟨by decide, by decide, by decide⟩
